import Mathlib

/-!
Verification of the mini-rag retrieval core.

This file gives a shallow embedding in Lean 4 of the retrieval engine of the
mini-rag repository: the text chunker (`chunkText` in `src/retrieval.js` /
`src/app.js`), cosine similarity (`cosineSim`), the brute-force in-memory
ranker (`topKByCosine`), the Vectorize-backed ranker with keyword re-ranking
(`topKByVectorize` and `keywordBoost` in `src/retrieval.js`), the `/ask`
boundary (`k` clamping, empty-corpus handling) and the in-memory store
(`store.js`).

Modelling conventions:
  * JS numbers are modelled as exact rationals (`ℚ`); `Number.toFixed(4)`
    becomes exact rounding to 4 decimal digits (`round4`).  `Math.sqrt` is
    modelled by `Real.sqrt`, so `cosineSim` returns a real number; for the
    ranking pipeline the cosine score of a candidate is carried as the exact
    pair `(dot, na*nb)` whose real value is `dot / Real.sqrt (na*nb)`, and
    the sort comparator on pairs is proved equivalent to comparison of the
    real values (`pairLtB_iff`), keeping the ranker computable.
  * JS strings are `String` / `List Char`; `String.prototype.trim` is
    `jsTrim` (ASCII whitespace), `toLowerCase` is ASCII `Char.toLower`.
  * `Array.prototype.sort((a, b) => b.score - a.score)` is a stable
    descending sort (ECMA-262); a stable sort is extensionally determined
    by the comparator, so it is modelled by stable insertion sort
    `sortDesc`.
  * The external collaborators (embedder, Vectorize index, D1 store, LLM)
    are parameters: the index result is a list of matches, hydration is a
    function `ℤ → Except Unit (Option VRow)` (`Except.error` models a
    thrown exception, `none` models a missing row), embedding and
    generation are function arguments.
  * The `while` loop of `chunkText` is embedded with explicit fuel
    (`chunkTextFuel`); `none` means the fuel ran out, so a result that is
    `none` for every fuel value models non-termination of the JS loop.
  * The mutable module state of `store.js` (`MEMORY`, `NEXT_ID`) is an
    explicit `StoreState` threaded through the operations that the source
    performs on it; operations that mutate it return a new state, readers
    return the state unchanged.
-/

namespace MiniRag

/-! ## Definitions -/

/-! ### Chunker (`chunkText` from `src/retrieval.js`, identical copy in `src/app.js`) -/

/-- Model of `String.prototype.trim`: drop whitespace at both ends. -/
def jsTrim (s : List Char) : List Char :=
  ((s.dropWhile Char.isWhitespace).reverse.dropWhile Char.isWhitespace).reverse

/-- Model of `text.slice(i, e)` for `i ≤ e` (character indices). -/
def jsSlice (t : List Char) (i e : ℕ) : List Char :=
  (t.drop i).take (e - i)

/-- Fuel-indexed embedding of the `while` loop of `chunkText`:

```js
while (i < text.length) {
  const end = Math.min(i + chunkSize, text.length);
  const slice = text.slice(i, end).trim();
  if (slice) chunks.push(slice);
  if (end === text.length) break;
  i = Math.max(0, end - overlap);
}
```

`i` is the cursor, `acc` the chunks pushed so far.  Since `end` and
`overlap` are naturals, `Math.max(0, end - overlap)` is truncated
subtraction `end - overlap`.  Returns `none` when the fuel is exhausted
before the loop exits. -/
def chunkTextFuel (t : List Char) (chunkSize overlap : ℕ) :
    ℕ → ℕ → List (List Char) → Option (List (List Char))
  | 0, _, _ => none
  | fuel + 1, i, acc =>
    if i < t.length then
      let e := min (i + chunkSize) t.length
      let sl := jsTrim (jsSlice t i e)
      let acc2 := if sl = [] then acc else acc ++ [sl]
      if e = t.length then some acc2
      else chunkTextFuel t chunkSize overlap fuel (e - overlap) acc2
    else some acc

/-- `chunkText text chunkSize overlap fuel`: run the loop from cursor 0 with
the given fuel. -/
def chunkText (t : List Char) (chunkSize overlap : ℕ) (fuel : ℕ) :
    Option (List (List Char)) :=
  chunkTextFuel t chunkSize overlap fuel 0 []

/-! ### Cosine similarity (`cosineSim` from `src/retrieval.js`)

```js
export function cosineSim(a, b) {
  let dot = 0, na = 0, nb = 0;
  for (let i = 0; i < a.length; i++) {
    dot += a[i] * b[i];
    na  += a[i] * a[i];
    nb  += b[i] * b[i];
  }
  return (!na || !nb) ? 0 : dot / (Math.sqrt(na) * Math.sqrt(nb));
}
```

The loop runs over the indices of `a`, so `nb` sums the squares of the
first `a.length` entries of `b` (the claims only concern equal-length
inputs, where this is all of `b`; for `a` longer than `b` the JS code
would produce `NaN`, which the exact model does not represent). -/

/-- Dot product accumulated by the loop: `Σ a[i] * b[i]` over the common
length. -/
def dotQ (a b : List ℚ) : ℚ :=
  (List.zipWith (fun x y => x * y) a b).sum

/-- Sum of squares of a vector. -/
def sumsq (a : List ℚ) : ℚ :=
  (a.map fun x => x * x).sum

/-- Model of `cosineSim`: the guard `(!na || !nb)` tests `na == 0` or
`nb == 0` (the accumulators are exact here, so falsiness is exactly
zero). -/
noncomputable def cosineSim (a b : List ℚ) : ℝ :=
  let na := sumsq a
  let nb := sumsq (b.take a.length)
  if na = 0 ∨ nb = 0 then 0
  else (dotQ a b : ℝ) / (Real.sqrt (na : ℝ) * Real.sqrt (nb : ℝ))

/-! ### Stable descending sort

`array.sort((a, b) => b.score - a.score)` is a stable sort (ECMA-262)
putting larger scores first.  A stable descending sort is extensionally
determined by the comparator, so it is modelled by stable insertion sort:
elements are inserted left to right, and an element moves past an already
placed one only when it is strictly greater. -/

/-- Insert `x` into `l` (assumed sorted descending): `x` is placed before
the first element strictly smaller than it, hence after every earlier
element that is greater than or equal to it (stability). -/
def insertDesc (lt : α → α → Bool) (x : α) : List α → List α
  | [] => [x]
  | y :: ys => if lt y x then x :: y :: ys else y :: insertDesc lt x ys

/-- Tail of the sort: fold the remaining input into the sorted accumulator. -/
def sortDescAux (lt : α → α → Bool) : List α → List α → List α
  | [], acc => acc
  | x :: xs, acc => sortDescAux lt xs (insertDesc lt x acc)

/-- Stable descending sort by the Boolean comparator `lt`. -/
def sortDesc (lt : α → α → Bool) (l : List α) : List α :=
  sortDescAux lt l []

/-- Descending sortedness: no later element is strictly greater than an
earlier one. -/
def DescSorted (lt : α → α → Bool) (l : List α) : Prop :=
  l.Pairwise fun a b => lt a b = false

/-! ### Exact representation of cosine scores

`topKByCosine` sorts by the comparator `(a, b) => b.score - a.score` on
the cosine scores `dot / (√na * √nb)`.  The model carries the exact pair
`(dot, na * nb)` with each candidate and compares pairs with the
computable `pairLtB`, which is proved (`pairLtB_iff`) to decide the strict
order of the represented real values, so the computable sort agrees with
the float sort of the source. -/

/-- Real value represented by a score pair `(d, p)`: `d / √p`. -/
noncomputable def pairVal (x : ℚ × ℚ) : ℝ :=
  (x.1 : ℝ) / Real.sqrt (x.2 : ℝ)

/-- Send a pair with non-positive second component to the zero score
`(0, 1)`; on pairs produced by `cosPair` (second component always
positive) this is the identity. -/
def pairNorm (x : ℚ × ℚ) : ℚ × ℚ :=
  if 0 < x.2 then x else (0, 1)

/-- Decide `x.1 / √x.2 < y.1 / √y.2` for positive second components, by
sign analysis and cross-multiplied squares. -/
def pairCore (x y : ℚ × ℚ) : Bool :=
  (decide (x.1 < 0) && decide (0 ≤ y.1)) ||
  (decide (0 ≤ x.1) && decide (0 ≤ y.1) &&
    decide (x.1 ^ 2 * y.2 < y.1 ^ 2 * x.2)) ||
  (decide (x.1 < 0) && decide (y.1 < 0) &&
    decide (y.1 ^ 2 * x.2 < x.1 ^ 2 * y.2))

/-- Computable comparator on score pairs. -/
def pairLtB (x y : ℚ × ℚ) : Bool := pairCore (pairNorm x) (pairNorm y)

/-- Exact score pair of `cosineSim qVec embedding`: the guarded value 0 is
represented as `(0, 1)`, otherwise `(dot, na * nb)`. -/
def cosPair (a b : List ℚ) : ℚ × ℚ :=
  let na := sumsq a
  let nb := sumsq (b.take a.length)
  if na = 0 ∨ nb = 0 then (0, 1) else (dotQ a b, na * nb)

/-! ### Brute-force ranker (`topKByCosine` from `src/retrieval.js`)

```js
export function topKByCosine(qVec, k = 4) {
  const mem = rawMemory();
  return mem
    .map(it => ({ ...it, score: cosineSim(qVec, it.embedding) }))
    .sort((a, b) => b.score - a.score)
    .slice(0, k)
    .map((r, i) => ({ ref: `#${i+1}`, score: Number(r.score.toFixed(4)), text: r.text }));
}
```

Result records carry the exact score pair `spair` in place of the float
`score`; the displayed float `Number(score.toFixed(4))` is
`cosDisplayScore` below. -/

/-- A stored chunk (`{ id, text, embedding }` in `store.js` `MEMORY`). -/
structure Chunk where
  id : ℕ
  text : String
  embedding : List ℚ
deriving DecidableEq

/-- A chunk together with its query score (`{ ...it, score }`). -/
structure ScoredChunk where
  id : ℕ
  text : String
  embedding : List ℚ
  spair : ℚ × ℚ
deriving DecidableEq

/-- A formatted result row (`{ ref, score, text }`); `spair` is the exact
value whose rounded real is the JS `score` field. -/
structure CosResult where
  ref : String
  spair : ℚ × ℚ
  text : String
deriving DecidableEq

/-- The `.map(it => ({ ...it, score: cosineSim(qVec, it.embedding) }))`
stage. -/
def cosScored (mem : List Chunk) (qVec : List ℚ) : List ScoredChunk :=
  mem.map fun it => ⟨it.id, it.text, it.embedding, cosPair qVec it.embedding⟩

/-- The sort comparator `(a, b) => b.score - a.score` on scored chunks. -/
def scLt (r s : ScoredChunk) : Bool := pairLtB r.spair s.spair

/-- The `.sort((a, b) => b.score - a.score)` stage. -/
def cosSorted (mem : List Chunk) (qVec : List ℚ) : List ScoredChunk :=
  sortDesc scLt (cosScored mem qVec)

/-- The final `.map((r, i) => ({ ref: `#i+1`, ... }))` stage: label the
element at position `n` (0-based) with ref `#(n+1)`. -/
def labelCos : ℕ → List ScoredChunk → List CosResult
  | _, [] => []
  | n, r :: rs => ⟨"#" ++ toString (n + 1), r.spair, r.text⟩ :: labelCos (n + 1) rs

/-- `topKByCosine(qVec, k)` over the corpus `mem`. -/
def topKByCosine (mem : List Chunk) (qVec : List ℚ) (k : ℕ) : List CosResult :=
  labelCos 0 ((cosSorted mem qVec).take k)

/-- Exact model of `Number(x.toFixed(4))` on rationals. -/
def round4 (q : ℚ) : ℚ := (round (q * 10000) : ℤ) / 10000

/-- Exact model of `Number(x.toFixed(4))` on reals. -/
noncomputable def round4R (x : ℝ) : ℝ := (round (x * 10000) : ℤ) / 10000

/-- The float `score` field displayed for a brute-force result row. -/
noncomputable def cosDisplayScore (r : CosResult) : ℝ := round4R (pairVal r.spair)

/-! ### In-memory store (`store.js`: `MEMORY`, `NEXT_ID`) -/

/-- The module-level mutable state of `store.js`. -/
structure StoreState where
  mem : List Chunk
  nextId : ℕ
deriving DecidableEq

/-- `rawMemory()`: expose the chunk array. -/
def rawMemory (s : StoreState) : List Chunk := s.mem

/-- `topKByCosine` as it is called in context: it reads `rawMemory()` and
builds fresh arrays (`map` copies, the sort acts on the copy), leaving the
store untouched; the unchanged state is returned explicitly. -/
def topKByCosineS (s : StoreState) (qVec : List ℚ) (k : ℕ) :
    List CosResult × StoreState :=
  (topKByCosine (rawMemory s) qVec k, s)

/-- `addTextChunks(chunks, embedFunc)`: push `{ id: NEXT_ID++, text, embedding }`
for each chunk (embeddings precomputed by the external embedder). -/
def addTextChunksS (s : StoreState) (chunks : List (String × List ℚ)) : StoreState :=
  chunks.foldl
    (fun st c => StoreState.mk (st.mem ++ [Chunk.mk st.nextId c.1 c.2]) (st.nextId + 1))
    s

/-- `clearMemory()`: drop everything and reset the id counter. -/
def clearMemoryS (_ : StoreState) : StoreState := StoreState.mk [] 1

/-! ### The `/ask` boundary: `k` clamping and the local orchestrator

`const k = Math.max(1, Math.min(8, parseInt(req.query.k) || 4));`
(`src/app.js`, both server variants). -/

/-- `String.prototype.trim` on `String`. -/
def jsTrimS (s : String) : String := String.mk (jsTrim s.data)

/-- Decimal digit value of a character, if any. -/
def digitVal (c : Char) : Option ℕ :=
  if '0' ≤ c ∧ c ≤ '9' then some (c.toNat - 48) else none

/-- Hexadecimal digit value of a character, if any. -/
def hexVal (c : Char) : Option ℕ :=
  if '0' ≤ c ∧ c ≤ '9' then some (c.toNat - 48)
  else if 'a' ≤ c ∧ c ≤ 'f' then some (c.toNat - 87)
  else if 'A' ≤ c ∧ c ≤ 'F' then some (c.toNat - 55)
  else none

/-- Consume the longest run of digits; `none` when no digit was read
(`parseInt` yields `NaN` then). -/
def parseRun (val : Char → Option ℕ) (base : ℕ) : List Char → Option ℕ → Option ℕ
  | [], acc => acc
  | c :: cs, acc =>
    match val c with
    | some d => parseRun val base cs (some ((acc.getD 0) * base + d))
    | none => acc

/-- Parse after the optional sign: radix 16 after a `0x`/`0X` prefix,
radix 10 otherwise. -/
def jsParseIntAux (sign : ℤ) (cs : List Char) : Option ℤ :=
  match cs with
  | '0' :: 'x' :: rest => (parseRun hexVal 16 rest none).map fun n => sign * (n : ℤ)
  | '0' :: 'X' :: rest => (parseRun hexVal 16 rest none).map fun n => sign * (n : ℤ)
  | _ => (parseRun digitVal 10 cs none).map fun n => sign * (n : ℤ)

/-- Model of `parseInt(s)` (no explicit radix): skip leading whitespace,
optional sign, longest digit run; `none` models `NaN`. -/
def jsParseInt (s : String) : Option ℤ :=
  match s.data.dropWhile Char.isWhitespace with
  | '-' :: rest => jsParseIntAux (-1) rest
  | '+' :: rest => jsParseIntAux 1 rest
  | cs => jsParseIntAux 1 cs

/-- The effective `k` of the `/ask` route:
`Math.max(1, Math.min(8, parseInt(kq) || 4))`.  An absent parameter
(`none`) is `parseInt(undefined) = NaN`; `|| 4` replaces `NaN` and `0` by
the default 4. -/
def effectiveK (kq : Option String) : ℤ :=
  let base : ℤ :=
    match kq.bind jsParseInt with
    | some n => if n = 0 then 4 else n
    | none => 4
  max 1 (min 8 base)

/-- Context block: `chunks.map(c => “[ref] text”).join("\n\n")`. -/
def contextOfCos (chunks : List CosResult) : String :=
  String.intercalate "\n\n" (chunks.map fun c => "[" ++ c.ref ++ "] " ++ c.text)

/-- Fallback answer of the local server: echo the chunks
(`chunks.map((c, i) => “• text ([#i+1])”).join("\n")`). -/
def echoLines : ℕ → List CosResult → List String
  | _, [] => []
  | i, c :: cs => ("• " ++ c.text ++ " ([#" ++ toString (i + 1) ++ "])") :: echoLines (i + 1) cs

/-- Outcome of the local (Express) `/ask` route. -/
inductive LocalAsk where
  | badRequest (msg : String)
  | success (chunks : List CosResult) (answer : String)
deriving DecidableEq

/-- The local `/ask` orchestrator (`buildApp` in `src/app.js`): trim the
query, clamp `k`, reject a blank query, reject an empty store with a 400
error, otherwise embed (external `embedF`), rank with `topKByCosine`, and
answer by the external generator `genF` or the echo fallback.  The store
state is threaded to record which steps touch it. -/
def askLocalS (embedF : String → List ℚ) (genF : String → String → Option String)
    (s : StoreState) (qRaw : String) (kRaw : Option String) :
    LocalAsk × StoreState :=
  let q := jsTrimS qRaw
  let k := effectiveK kRaw
  if q = "" then (LocalAsk.badRequest "Missing query ?q=", s)
  else if (rawMemory s).length = 0 then
    (LocalAsk.badRequest "No documents ingested yet", s)
  else
    let qVec := embedF q
    let chunks := topKByCosine (rawMemory s) qVec k.toNat
    let context := contextOfCos chunks
    let answer :=
      match genF q context with
      | some a => a
      | none => String.intercalate "\n" (echoLines 0 chunks)
    (LocalAsk.success chunks answer, s)

/-! ### Keyword boost (`keywordBoost` from `src/retrieval.js`)

```js
function keywordBoost(q, text) {
  if (!q || !text) return 0;
  const stop = new Set([...]);
  const toks = q.toLowerCase().split(/[^a-z0-9]+/)
    .filter(t => t && t.length > 2 && !stop.has(t));
  if (toks.length === 0) return 0;
  const hay = text.toLowerCase();
  let hits = 0;
  for (const t of toks) if (hay.includes(t)) hits++;
  return Math.min(0.2, hits * 0.05);
}
```
-/

/-- ASCII lower-casing of the characters of a string (`toLowerCase`). -/
def lowerL (s : String) : List Char := s.data.map Char.toLower

/-- Characters kept by the token split `/[^a-z0-9]+/` (applied after
lower-casing). -/
def isTokChar (c : Char) : Bool :=
  ('a' ≤ c && c ≤ 'z') || ('0' ≤ c && c ≤ '9')

/-- Accumulate the current run (`cur`, reversed) while splitting. -/
def splitRunsAux : List Char → List Char → List (List Char)
  | [], cur => if cur = [] then [] else [cur.reverse]
  | c :: cs, cur =>
    if isTokChar c then splitRunsAux cs (c :: cur)
    else if cur = [] then splitRunsAux cs []
    else cur.reverse :: splitRunsAux cs []

/-- Maximal runs of token characters (`split(/[^a-z0-9]+/)`; the empty
fragments the JS split can produce are dropped by the `t && ...` filter
immediately afterwards, so they are never collected here). -/
def splitRuns (l : List Char) : List (List Char) := splitRunsAux l []

/-- The stop-word set of `keywordBoost`. -/
def stopWords : List (List Char) :=
  ["the", "is", "are", "in", "of", "and", "to", "a", "an", "where", "what",
   "which", "who", "whats", "how", "does", "do", "did", "on", "at", "for",
   "with", "from", "by", "about", "into", "over", "under", "it", "its",
   "be", "was", "were", "been"].map String.data

/-- The filtered token list of the query: runs longer than 2 characters
that are not stop words. -/
def queryToks (q : String) : List (List Char) :=
  (splitRuns (lowerL q)).filter fun t =>
    decide (2 < t.length) && ! (stopWords.contains t)

/-- Does `hay` start with `needle`? -/
def startsWithL : List Char → List Char → Bool
  | [], _ => true
  | _ :: _, [] => false
  | c :: cs, d :: ds => c == d && startsWithL cs ds

/-- Model of `hay.includes(needle)`: `needle` occurs contiguously in
`hay`. -/
def hasSubstr (needle : List Char) : List Char → Bool
  | [] => startsWithL needle []
  | c :: rest => startsWithL needle (c :: rest) || hasSubstr needle rest

/-- Number of filtered query tokens occurring in the lower-cased text
(each occurrence in the token list counts, duplicates included). -/
def hitCount (q text : String) : ℕ :=
  ((queryToks q).filter fun t => hasSubstr t (lowerL text)).length

/-- Model of `keywordBoost(q, text)`: the `!q || !text` guard, the
empty-token guard, then `Math.min(0.2, hits * 0.05)` where `hits` counts
the filtered query tokens contained in the lower-cased text. -/
def keywordBoost (q text : String) : ℚ :=
  if q = "" ∨ text = "" then 0
  else if queryToks q = [] then 0
  else
    min (2/10)
      (((((queryToks q).filter fun t => hasSubstr t (lowerL text)).length : ℕ) : ℚ)
        * (5/100))

/-! ### Vectorize ranker (`topKByVectorize` from `src/retrieval.js`)

```js
const res = await env.VECTOR_INDEX.query(qVec, { topK: Math.max(k, 12) });
const matches = res?.matches || [];
const items = [];
for (let i = 0; i < matches.length; i++) {
  const m = matches[i];
  const idNum = Number(m.id);
  let text = ''; let meta = null;
  try {
    const row = await getChunkById(env, idNum);
    if (row) { text = row.text || ''; meta = row.meta ? JSON.parse(row.meta) : null; }
  } catch (_) { /* ignore */ }
  const base = Number((m.score ?? 0).toFixed(4));
  const boosted = base + keywordBoost(question, text);
  items.push({ ref: `#i+1`, score: Number(boosted.toFixed(4)), id: idNum, text, meta });
}
return items
  .filter(it => it.text && it.text.trim().length > 0)
  .sort((a, b) => b.score - a.score)
  .slice(0, k);
```

The embedding of the question and the index query are external calls; the
list of matches they produce is the input of the model.  Hydration
(`getChunkById`) is a function to `Except Unit (Option VRow)`: `error`
models a thrown exception (caught and ignored by the loop), `ok none` a
missing row.  `meta` is carried as the raw stored string (the `JSON.parse`
of a present `meta` is not modelled; no claim concerns its value). -/

/-- One Vectorize match: numeric id (`Number(m.id)`) and optional raw
score (`m.score ?? 0` defaults a missing score to 0). -/
structure VMatch where
  id : ℤ
  score : Option ℚ
deriving DecidableEq

/-- A hydrated D1 row. -/
structure VRow where
  text : String
  meta : Option String
deriving DecidableEq

/-- A re-ranked result item of `topKByVectorize`. -/
structure VItem where
  ref : String
  score : ℚ
  id : ℤ
  text : String
  meta : Option String
deriving DecidableEq

/-- The `text` local after the hydrate `try` block: `""` when the lookup
throws or returns no row, `row.text` otherwise (`row.text || ''` only
replaces a nullish text, which the `String` model already renders as
`""`). -/
def hydText (hyd : ℤ → Except Unit (Option VRow)) (id : ℤ) : String :=
  match hyd id with
  | Except.ok (some row) => row.text
  | _ => ""

/-- The `meta` local after the hydrate `try` block (raw stored string). -/
def hydMeta (hyd : ℤ → Except Unit (Option VRow)) (id : ℤ) : Option String :=
  match hyd id with
  | Except.ok (some row) => row.meta
  | _ => none

/-- The item pushed for the match at 0-based position `i`:
`ref = "#"+(i+1)`, `score = round4(round4(m.score ?? 0) + keywordBoost)`. -/
def vItemOf (q : String) (hyd : ℤ → Except Unit (Option VRow)) (i : ℕ)
    (m : VMatch) : VItem :=
  let text := hydText hyd m.id
  let base := round4 (m.score.getD 0)
  VItem.mk ("#" ++ toString (i + 1)) (round4 (base + keywordBoost q text))
    m.id text (hydMeta hyd m.id)

/-- The hydrate-and-score loop from position `i` on. -/
def vItemsFrom (q : String) (hyd : ℤ → Except Unit (Option VRow)) :
    ℕ → List VMatch → List VItem
  | _, [] => []
  | i, m :: ms => vItemOf q hyd i m :: vItemsFrom q hyd (i + 1) ms

/-- All pushed items (`items` after the loop). -/
def vItems (q : String) (hyd : ℤ → Except Unit (Option VRow))
    (ms : List VMatch) : List VItem :=
  vItemsFrom q hyd 0 ms

/-- The `it.text && it.text.trim().length > 0` filter. -/
def vKeep (it : VItem) : Bool :=
  decide (it.text ≠ "") && decide (0 < (jsTrim it.text.data).length)

/-- The re-sort comparator `(a, b) => b.score - a.score` on items. -/
def vLt (a b : VItem) : Bool := decide (a.score < b.score)

/-- Model of `topKByVectorize(env, question, k)` given the external match
list and hydration function: hydrate and score each match, drop blank
texts, re-sort by boosted score, truncate to `k`. -/
def topKByVectorize (q : String) (ms : List VMatch)
    (hyd : ℤ → Except Unit (Option VRow)) (k : ℕ) : List VItem :=
  (sortDesc vLt ((vItems q hyd ms).filter vKeep)).take k

/-! ### Workers `/ask` orchestrator (`src/app.js`, Hono variant)

```js
const q = (c.req.query("q") || "").toString().trim();
const k = Math.max(1, Math.min(8, parseInt(c.req.query("k")) || 4));
if (!q) return c.json({ error: "Missing query ?q=" }, 400);
const top = await topKByVectorize(c.env, q, k);
const context = top.map(item => “[ref] text”).join("\n\n");
let answer;
if (top.length === 0) {
  answer = "I don\x27t know. (No relevant context was found.)";
} else {
  answer = await answerWithWorkersAI(c.env, q, context);
}
```
-/

/-- Outcome of the Workers `/ask` route. -/
inductive WorkersAsk where
  | badRequest (msg : String)
  | success (chunks : List VItem) (answer : String)
deriving DecidableEq

/-- Context block of the Workers route. -/
def contextOfV (top : List VItem) : String :=
  String.intercalate "\n\n" (top.map fun it => "[" ++ it.ref ++ "] " ++ it.text)

/-- The Workers `/ask` orchestrator; `genF` is the external grounded-chat
call, used only when at least one candidate survived. -/
def askWorkers (genF : String → String → String) (ms : List VMatch)
    (hyd : ℤ → Except Unit (Option VRow)) (qRaw : String)
    (kRaw : Option String) : WorkersAsk :=
  let q := jsTrimS qRaw
  let k := effectiveK kRaw
  if q = "" then WorkersAsk.badRequest "Missing query ?q="
  else
    let top := topKByVectorize q ms hyd k.toNat
    let answer :=
      if top.length = 0 then "I don\x27t know. (No relevant context was found.)"
      else genF q (contextOfV top)
    WorkersAsk.success top answer

/-! ## Theorems -/

/-! ### Chunker -/

theorem chunkTextFuel_ab_loop (fuel : ℕ) :
    ∀ acc, chunkTextFuel ['a', 'b'] 1 1 fuel 0 acc = none := by
  induction fuel with
  | zero => intro acc; rfl
  | succ n ih =>
    intro acc
    have h : chunkTextFuel ['a', 'b'] 1 1 (n + 1) 0 acc
        = chunkTextFuel ['a', 'b'] 1 1 n 0 (acc ++ [['a']]) := by
      rfl
    rw [h]
    exact ih (acc ++ [['a']])

/-- C1: the claim asserts that `chunkText` terminates for every
`chunkSize ≥ 1` and every `overlap`, because the implementation allegedly
clamps the next cursor to keep it strictly increasing.  The code clamps
only at 0 (`i = Math.max(0, end - overlap)`), so on the two-character text
`"ab"` with `chunkSize = 1`, `overlap = 1` the cursor stays at 0 forever:
the loop never finishes, whatever fuel it is given. -/
theorem chunkText_overlap_eq_size_diverges :
    ∀ fuel : ℕ, chunkText ['a', 'b'] 1 1 fuel = none := by
  intro fuel
  rw [chunkText]
  exact chunkTextFuel_ab_loop fuel []

/-! ### Cosine similarity -/

theorem sumsq_nonneg (a : List ℚ) : 0 ≤ sumsq a := by
  unfold sumsq
  induction a with
  | nil => simp
  | cons x xs ih =>
    simp only [List.map_cons, List.sum_cons]
    have := mul_self_nonneg x
    linarith

/-- C5: if either vector has zero magnitude, `cosineSim` returns exactly 0;
otherwise it is the dot product divided by the product of the two norms. -/
theorem cosineSim_spec (a b : List ℚ) (hlen : a.length = b.length) :
    ((Real.sqrt (sumsq a) = 0 ∨ Real.sqrt (sumsq b) = 0) →
      cosineSim a b = 0) ∧
    (Real.sqrt (sumsq a) ≠ 0 → Real.sqrt (sumsq b) ≠ 0 →
      cosineSim a b =
        (dotQ a b : ℝ) / (Real.sqrt (sumsq a) * Real.sqrt (sumsq b))) := by
  have htake : b.take a.length = b := by
    rw [hlen]; exact List.take_length b
  have hsq : ∀ v : List ℚ, Real.sqrt (sumsq v) = 0 ↔ (sumsq v : ℚ) = 0 := by
    intro v
    constructor
    · intro h
      have h0 : (0:ℝ) ≤ (sumsq v : ℚ) := by exact_mod_cast sumsq_nonneg v
      have := Real.sqrt_eq_zero h0 |>.mp h
      exact_mod_cast this
    · intro h
      rw [show ((sumsq v : ℚ) : ℝ) = 0 by exact_mod_cast h]
      exact Real.sqrt_zero
  constructor
  · intro h
    have hz : sumsq a = 0 ∨ sumsq (b.take a.length) = 0 := by
      rw [htake]
      rcases h with h | h
      · exact Or.inl ((hsq a).mp h)
      · exact Or.inr ((hsq b).mp h)
    simp only [cosineSim, if_pos hz]
  · intro ha hb
    have hz : ¬ (sumsq a = 0 ∨ sumsq (b.take a.length) = 0) := by
      rw [htake]
      rintro (h | h)
      · exact ha ((hsq a).mpr h)
      · exact hb ((hsq b).mpr h)
    rw [htake] at hz
    simp only [cosineSim, htake, if_neg hz]

/-- Witness for C5 at a concrete input: `a = [0]`, `b = [3]` have equal
length, `a` has zero magnitude, and `cosineSim [0] [3] = 0`. -/
theorem cosineSim_spec_witness :
    ([(0:ℚ)].length = [(3:ℚ)].length) ∧ cosineSim [(0:ℚ)] [(3:ℚ)] = 0 := by
  refine ⟨rfl, ?_⟩
  refine (cosineSim_spec [(0:ℚ)] [(3:ℚ)] rfl).1 (Or.inl ?_)
  have h : sumsq [(0:ℚ)] = 0 := by norm_num [sumsq]
  rw [show ((sumsq [(0:ℚ)] : ℚ) : ℝ) = 0 by exact_mod_cast h]
  exact Real.sqrt_zero

/-! ### Stable descending sort -/

theorem mem_insertDesc (lt : α → α → Bool) (x : α) (l : List α) (a : α) :
    a ∈ insertDesc lt x l ↔ a = x ∨ a ∈ l := by
  induction l with
  | nil => simp [insertDesc]
  | cons y ys ih =>
    by_cases h : lt y x = true
    · simp [insertDesc, h]
    · simp only [insertDesc, if_neg h, List.mem_cons, ih]
      tauto

theorem length_insertDesc (lt : α → α → Bool) (x : α) (l : List α) :
    (insertDesc lt x l).length = l.length + 1 := by
  induction l with
  | nil => rfl
  | cons y ys ih =>
    by_cases h : lt y x = true
    · simp [insertDesc, h]
    · simp [insertDesc, h, ih]

theorem mem_sortDescAux (lt : α → α → Bool) (l acc : List α) (a : α) :
    a ∈ sortDescAux lt l acc ↔ a ∈ acc ∨ a ∈ l := by
  induction l generalizing acc with
  | nil => simp [sortDescAux]
  | cons x xs ih =>
    simp only [sortDescAux, ih, mem_insertDesc, List.mem_cons]
    tauto

theorem mem_sortDesc (lt : α → α → Bool) (l : List α) (a : α) :
    a ∈ sortDesc lt l ↔ a ∈ l := by
  simp [sortDesc, mem_sortDescAux]

theorem length_sortDescAux (lt : α → α → Bool) (l acc : List α) :
    (sortDescAux lt l acc).length = acc.length + l.length := by
  induction l generalizing acc with
  | nil => simp [sortDescAux]
  | cons x xs ih =>
    simp only [sortDescAux, ih, length_insertDesc, List.length_cons]
    omega

theorem length_sortDesc (lt : α → α → Bool) (l : List α) :
    (sortDesc lt l).length = l.length := by
  simp [sortDesc, length_sortDescAux]

theorem descSorted_insertDesc (lt : α → α → Bool)
    (hasymm : ∀ a b, lt a b = true → lt b a = false)
    (hnegtrans : ∀ a b c, lt a b = true → lt c b = false → lt a c = true)
    (x : α) (l : List α) (hl : DescSorted lt l) :
    DescSorted lt (insertDesc lt x l) := by
  induction l with
  | nil => exact List.pairwise_cons.mpr ⟨by simp, List.Pairwise.nil⟩
  | cons y ys ih =>
    rcases List.pairwise_cons.mp hl with ⟨hy, hys⟩
    by_cases h : lt y x = true
    · rw [insertDesc, if_pos h]
      refine List.pairwise_cons.mpr ⟨?_, hl⟩
      intro z hz
      rcases List.mem_cons.mp hz with rfl | hz
      · exact hasymm _ _ h
      · cases hxz : lt x z with
        | false => rfl
        | true =>
          have : lt y z = true := hnegtrans y x z h (hasymm _ _ hxz)
          rw [hy z hz] at this
          exact Bool.noConfusion this
    · rw [insertDesc, if_neg h]
      refine List.pairwise_cons.mpr ⟨?_, ih hys⟩
      intro z hz
      rcases (mem_insertDesc lt x ys z).mp hz with rfl | hz
      · exact Bool.eq_false_iff.mpr h
      · exact hy z hz

theorem descSorted_sortDescAux (lt : α → α → Bool)
    (hasymm : ∀ a b, lt a b = true → lt b a = false)
    (hnegtrans : ∀ a b c, lt a b = true → lt c b = false → lt a c = true)
    (l : List α) :
    ∀ acc, DescSorted lt acc → DescSorted lt (sortDescAux lt l acc) := by
  induction l with
  | nil => intro acc h; exact h
  | cons x xs ih =>
    intro acc h
    exact ih _ (descSorted_insertDesc lt hasymm hnegtrans x acc h)

theorem descSorted_sortDesc (lt : α → α → Bool)
    (hasymm : ∀ a b, lt a b = true → lt b a = false)
    (hnegtrans : ∀ a b c, lt a b = true → lt c b = false → lt a c = true)
    (l : List α) : DescSorted lt (sortDesc lt l) :=
  descSorted_sortDescAux lt hasymm hnegtrans l [] List.Pairwise.nil

theorem filter_insertDesc_neg (lt : α → α → Bool) (P : α → Bool) (x : α)
    (l : List α) (hPx : P x = false) :
    (insertDesc lt x l).filter P = l.filter P := by
  induction l with
  | nil => simp [insertDesc, List.filter, hPx]
  | cons y ys ih =>
    by_cases h : lt y x = true
    · simp [insertDesc, h, List.filter_cons, hPx]
    · simp [insertDesc, h, List.filter_cons, ih]

theorem filter_insertDesc_pos (lt : α → α → Bool) (P : α → Bool)
    (hnegtrans : ∀ a b c, lt a b = true → lt c b = false → lt a c = true)
    (hPP : ∀ a b, P a = true → P b = true → lt a b = false)
    (x : α) (l : List α) (hPx : P x = true) (hl : DescSorted lt l) :
    (insertDesc lt x l).filter P = l.filter P ++ [x] := by
  induction l with
  | nil => simp [insertDesc, List.filter, hPx]
  | cons y ys ih =>
    rcases List.pairwise_cons.mp hl with ⟨hy, hys⟩
    by_cases h : lt y x = true
    · rw [insertDesc, if_pos h]
      have hnone : ∀ z ∈ y :: ys, P z = false := by
        intro z hz
        rcases List.mem_cons.mp hz with rfl | hz
        · cases hPz : P z with
          | false => rfl
          | true =>
            rw [hPP z x hPz hPx] at h
            exact Bool.noConfusion h
        · cases hPz : P z with
          | false => rfl
          | true =>
            have hzx : lt z x = false := hPP z x hPz hPx
            have : lt y z = true := hnegtrans y x z h hzx
            rw [hy z hz] at this
            exact Bool.noConfusion this
      have hempty : (y :: ys).filter P = [] := List.filter_eq_nil_iff.mpr (by
        intro z hz
        rw [hnone z hz]
        exact Bool.false_ne_true)
      rw [List.filter_cons_of_pos hPx, hempty]
      rfl
    · rw [insertDesc, if_neg h]
      by_cases hPy : P y = true
      · rw [List.filter_cons_of_pos hPy, List.filter_cons_of_pos hPy, ih hys]
        rfl
      · rw [List.filter_cons_of_neg (by simpa using hPy),
          List.filter_cons_of_neg (by simpa using hPy), ih hys]

theorem filter_sortDescAux (lt : α → α → Bool) (P : α → Bool)
    (hasymm : ∀ a b, lt a b = true → lt b a = false)
    (hnegtrans : ∀ a b c, lt a b = true → lt c b = false → lt a c = true)
    (hPP : ∀ a b, P a = true → P b = true → lt a b = false)
    (l : List α) :
    ∀ acc, DescSorted lt acc →
      (sortDescAux lt l acc).filter P = acc.filter P ++ l.filter P := by
  induction l with
  | nil => intro acc _; simp [sortDescAux]
  | cons x xs ih =>
    intro acc hacc
    rw [sortDescAux, ih _ (descSorted_insertDesc lt hasymm hnegtrans x acc hacc)]
    by_cases hPx : P x = true
    · rw [filter_insertDesc_pos lt P hnegtrans hPP x acc hPx hacc,
        List.filter_cons_of_pos hPx, List.append_assoc]
      rfl
    · rw [filter_insertDesc_neg lt P x acc (by simpa using hPx),
        List.filter_cons_of_neg (by simpa using hPx)]

/-- Stability of `sortDesc`: any class of mutually tied elements (`P`
selects elements that never compare strictly under `lt`) appears in the
sorted output in exactly its original relative order. -/
theorem filter_sortDesc (lt : α → α → Bool) (P : α → Bool)
    (hasymm : ∀ a b, lt a b = true → lt b a = false)
    (hnegtrans : ∀ a b c, lt a b = true → lt c b = false → lt a c = true)
    (hPP : ∀ a b, P a = true → P b = true → lt a b = false)
    (l : List α) :
    (sortDesc lt l).filter P = l.filter P := by
  rw [sortDesc, filter_sortDescAux lt P hasymm hnegtrans hPP l [] List.Pairwise.nil]
  rfl

/-! ### Score pairs -/

theorem pairNorm_snd_pos (x : ℚ × ℚ) : 0 < (pairNorm x).2 := by
  unfold pairNorm
  by_cases h : 0 < x.2
  · rwa [if_pos h]
  · rw [if_neg h]; norm_num

theorem pairVal_pairNorm (x : ℚ × ℚ) : pairVal (pairNorm x) = pairVal x := by
  unfold pairNorm
  by_cases h : 0 < x.2
  · rw [if_pos h]
  · rw [if_neg h]
    have hx : Real.sqrt (x.2 : ℝ) = 0 := by
      rw [Real.sqrt_eq_zero']
      exact_mod_cast not_lt.mp h
    simp [pairVal, hx, Real.sqrt_one]

theorem pairCore_iff (x y : ℚ × ℚ) (hx : 0 < x.2) (hy : 0 < y.2) :
    pairCore x y = true ↔ pairVal x < pairVal y := by
  have hp : 0 < Real.sqrt (x.2 : ℝ) := Real.sqrt_pos.mpr (by exact_mod_cast hx)
  have hq : 0 < Real.sqrt (y.2 : ℝ) := Real.sqrt_pos.mpr (by exact_mod_cast hy)
  have hp2 : Real.sqrt (x.2 : ℝ) ^ 2 = (x.2 : ℝ) :=
    Real.sq_sqrt (by exact_mod_cast hx.le)
  have hq2 : Real.sqrt (y.2 : ℝ) ^ 2 = (y.2 : ℝ) :=
    Real.sq_sqrt (by exact_mod_cast hy.le)
  set p := Real.sqrt (x.2 : ℝ) with hpdef
  set q := Real.sqrt (y.2 : ℝ) with hqdef
  rw [pairVal, pairVal, ← hpdef, ← hqdef, div_lt_div_iff₀ hp hq]
  simp only [pairCore, Bool.or_eq_true, Bool.and_eq_true, decide_eq_true_eq]
  constructor
  · rintro ((⟨h1, h2⟩ | ⟨⟨h1, h2⟩, h3⟩) | ⟨⟨h1, h2⟩, h3⟩)
    · have ha : (x.1 : ℝ) < 0 := by exact_mod_cast h1
      have hb : (0 : ℝ) ≤ (y.1 : ℝ) := by exact_mod_cast h2
      nlinarith
    · have ha : (0 : ℝ) ≤ (x.1 : ℝ) := by exact_mod_cast h1
      have hb : (0 : ℝ) ≤ (y.1 : ℝ) := by exact_mod_cast h2
      have h3R : (x.1 : ℝ) ^ 2 * (y.2 : ℝ) < (y.1 : ℝ) ^ 2 * (x.2 : ℝ) := by
        exact_mod_cast h3
      rw [← hp2, ← hq2] at h3R
      nlinarith [mul_nonneg ha hq.le, mul_nonneg hb hp.le]
    · have ha : (x.1 : ℝ) < 0 := by exact_mod_cast h1
      have hb : (y.1 : ℝ) < 0 := by exact_mod_cast h2
      have h3R : (y.1 : ℝ) ^ 2 * (x.2 : ℝ) < (x.1 : ℝ) ^ 2 * (y.2 : ℝ) := by
        exact_mod_cast h3
      rw [← hp2, ← hq2] at h3R
      nlinarith [mul_neg_of_neg_of_pos ha hq, mul_neg_of_neg_of_pos hb hp]
  · intro h
    rcases lt_or_le x.1 0 with h1 | h1 <;> rcases lt_or_le y.1 0 with h2 | h2
    · -- both numerators negative
      refine Or.inr ⟨⟨h1, h2⟩, ?_⟩
      have ha : (x.1 : ℝ) < 0 := by exact_mod_cast h1
      have hb : (y.1 : ℝ) < 0 := by exact_mod_cast h2
      have hgoal : (y.1 : ℝ) ^ 2 * (x.2 : ℝ) < (x.1 : ℝ) ^ 2 * (y.2 : ℝ) := by
        rw [← hp2, ← hq2]
        nlinarith [mul_neg_of_neg_of_pos ha hq, mul_neg_of_neg_of_pos hb hp]
      exact_mod_cast hgoal
    · exact Or.inl (Or.inl ⟨h1, h2⟩)
    · -- x.1 ≥ 0 and y.1 < 0 contradicts the strict order
      exfalso
      have ha : (0 : ℝ) ≤ (x.1 : ℝ) := by exact_mod_cast h1
      have hb : (y.1 : ℝ) < 0 := by exact_mod_cast h2
      nlinarith [mul_nonneg ha hq.le, mul_neg_of_neg_of_pos hb hp]
    · refine Or.inl (Or.inr ⟨⟨h1, h2⟩, ?_⟩)
      have ha : (0 : ℝ) ≤ (x.1 : ℝ) := by exact_mod_cast h1
      have hb : (0 : ℝ) ≤ (y.1 : ℝ) := by exact_mod_cast h2
      have hgoal : (x.1 : ℝ) ^ 2 * (y.2 : ℝ) < (y.1 : ℝ) ^ 2 * (x.2 : ℝ) := by
        rw [← hp2, ← hq2]
        nlinarith [mul_nonneg ha hq.le, mul_nonneg hb hp.le]
      exact_mod_cast hgoal

/-- The computable comparator decides the order of the represented reals. -/
theorem pairLtB_iff (x y : ℚ × ℚ) :
    pairLtB x y = true ↔ pairVal x < pairVal y := by
  rw [pairLtB, pairCore_iff _ _ (pairNorm_snd_pos x) (pairNorm_snd_pos y),
    pairVal_pairNorm, pairVal_pairNorm]

theorem pairLtB_asymm (a b : ℚ × ℚ) (h : pairLtB a b = true) :
    pairLtB b a = false := by
  rcases Bool.eq_false_or_eq_true (pairLtB b a) with hba | hba
  · exact absurd ((pairLtB_iff a b).mp h) (lt_asymm ((pairLtB_iff b a).mp hba))
  · exact hba

theorem pairLtB_negtrans (a b c : ℚ × ℚ) (h1 : pairLtB a b = true)
    (h2 : pairLtB c b = false) : pairLtB a c = true := by
  rw [pairLtB_iff] at h1 ⊢
  have h2R : ¬ pairVal c < pairVal b := fun hh => by
    rw [(pairLtB_iff c b).mpr hh] at h2
    exact Bool.noConfusion h2
  exact lt_of_lt_of_le h1 (not_lt.mp h2R)

theorem pairLtB_irrefl (a : ℚ × ℚ) : pairLtB a a = false := by
  rcases Bool.eq_false_or_eq_true (pairLtB a a) with h | h
  · exact absurd ((pairLtB_iff a a).mp h) (lt_irrefl _)
  · exact h

theorem cosPair_snd_pos (a b : List ℚ) : 0 < (cosPair a b).2 := by
  unfold cosPair
  by_cases h : sumsq a = 0 ∨ sumsq (b.take a.length) = 0
  · simp [h]
  · push_neg at h
    simp only [if_neg (not_or.mpr h)]
    exact mul_pos (lt_of_le_of_ne (sumsq_nonneg a) (Ne.symm h.1))
      (lt_of_le_of_ne (sumsq_nonneg _) (Ne.symm h.2))

/-- The pair carried by the ranker represents exactly the `cosineSim`
value of the source. -/
theorem cosineSim_eq_pairVal (a b : List ℚ) :
    cosineSim a b = pairVal (cosPair a b) := by
  by_cases h : sumsq a = 0 ∨ sumsq (b.take a.length) = 0
  · simp [cosineSim, cosPair, h, pairVal, Real.sqrt_one]
  · push_neg at h
    simp only [cosineSim, cosPair, if_neg (not_or.mpr h), pairVal]
    have hcast : ((sumsq a * sumsq (b.take a.length) : ℚ) : ℝ)
        = (sumsq a : ℝ) * (sumsq (b.take a.length) : ℝ) := by push_cast; ring
    rw [hcast, Real.sqrt_mul (by exact_mod_cast sumsq_nonneg a)]

/-! ### Brute-force ranker -/

theorem labelCos_get (l : List ScoredChunk) :
    ∀ (n i : ℕ) (h : i < (labelCos n l).length),
      ((labelCos n l).get ⟨i, h⟩).ref = "#" ++ toString (n + i + 1) := by
  induction l with
  | nil => intro n i h; simp [labelCos] at h
  | cons r rs ih =>
    intro n i h
    cases i with
    | zero => simp [labelCos]
    | succ i =>
      have h2 : i < (labelCos (n + 1) rs).length := by
        simpa [labelCos] using h
      have := ih (n + 1) i h2
      simpa [labelCos, Nat.add_assoc, Nat.add_comm, Nat.add_left_comm] using this

theorem labelCos_take (l : List ScoredChunk) :
    ∀ (n m : ℕ), (labelCos n l).take m = labelCos n (l.take m) := by
  induction l with
  | nil => intro n m; simp [labelCos]
  | cons r rs ih =>
    intro n m
    cases m with
    | zero => simp [labelCos]
    | succ m => simp [labelCos, ih]

theorem labelCos_length (l : List ScoredChunk) :
    ∀ n, (labelCos n l).length = l.length := by
  induction l with
  | nil => intro n; rfl
  | cons r rs ih => intro n; simp [labelCos, ih]

/-- C6: retrieval over a fixed corpus and query vector is deterministic
(calling again on the state returned by a previous call yields the same
sequence), increasing `k` never reorders the previously returned prefix,
and candidates with tied scores keep their original corpus order (the
sort is stable). -/
theorem topKByCosine_repeatable (s : StoreState) (qVec : List ℚ)
    (k1 k2 : ℕ) (h : k1 ≤ k2) :
    (topKByCosineS s qVec k1).1
        = (topKByCosineS (topKByCosineS s qVec k1).2 qVec k1).1 ∧
    topKByCosine (rawMemory s) qVec k1
        = (topKByCosine (rawMemory s) qVec k2).take k1 ∧
    (∀ c : ℚ × ℚ,
      (cosSorted (rawMemory s) qVec).filter (fun r => decide (r.spair = c))
        = (cosScored (rawMemory s) qVec).filter (fun r => decide (r.spair = c))) := by
  refine ⟨rfl, ?_, ?_⟩
  · rw [topKByCosine, topKByCosine, labelCos_take, List.take_take,
      min_eq_left h]
  · intro c
    unfold cosSorted
    refine filter_sortDesc scLt _ ?_ ?_ ?_ _
    · intro a b hab
      exact pairLtB_asymm _ _ hab
    · intro a b d h1 h2
      exact pairLtB_negtrans _ _ _ h1 h2
    · intro a b ha hb
      have ha2 : a.spair = c := of_decide_eq_true ha
      have hb2 : b.spair = c := of_decide_eq_true hb
      unfold scLt
      rw [ha2, hb2]
      exact pairLtB_irrefl c

/-- Witness for C6: a concrete one-chunk store with `k1 = 1 ≤ k2 = 2`. -/
theorem topKByCosine_repeatable_witness :
    (1 ≤ 2) ∧
    topKByCosine (rawMemory (StoreState.mk [Chunk.mk 1 "a" [1]] 2)) [1] 1
      = (topKByCosine (rawMemory (StoreState.mk [Chunk.mk 1 "a" [1]] 2)) [1] 2).take 1 :=
  ⟨by decide,
   (topKByCosine_repeatable (StoreState.mk [Chunk.mk 1 "a" [1]] 2)
      [1] 1 2 (by decide)).2.1⟩

/-- C8: retrieval never mutates the store.  Both a bare `topKByCosine`
call and the whole local `/ask` orchestration return the store state —
the chunk sequence with ids, texts and embeddings, and the id counter —
exactly as it was before the call. -/
theorem retrieval_preserves_store (s : StoreState) (qVec : List ℚ) (k : ℕ)
    (embedF : String → List ℚ) (genF : String → String → Option String)
    (qRaw : String) (kRaw : Option String) :
    (topKByCosineS s qVec k).2 = s ∧
    (askLocalS embedF genF s qRaw kRaw).2 = s := by
  refine ⟨rfl, ?_⟩
  simp only [askLocalS]
  split_ifs <;> rfl

/-- C10: the effective `k` at the `/ask` boundary always lies in `[1, 8]`;
a `k` of `"0"`, an absent parameter and any unparsable string fall back to
the default 4 (because `parseInt(...) || 4` treats 0 and NaN as absent);
a negative parse clamps to 1 and a parse above 8 clamps to 8. -/
theorem effectiveK_clamped (kq : Option String) :
    (1 ≤ effectiveK kq ∧ effectiveK kq ≤ 8) ∧
    effectiveK (some "0") = 4 ∧
    effectiveK none = 4 ∧
    (kq.bind jsParseInt = none → effectiveK kq = 4) ∧
    (∀ n : ℤ, kq.bind jsParseInt = some n → n < 0 → effectiveK kq = 1) ∧
    (∀ n : ℤ, kq.bind jsParseInt = some n → 8 < n → effectiveK kq = 8) := by
  refine ⟨⟨?_, ?_⟩, by decide, by decide, ?_, ?_, ?_⟩
  · simp only [effectiveK]
    exact le_max_left _ _
  · simp only [effectiveK]
    exact max_le (by norm_num) (min_le_left _ _)
  · intro h
    unfold effectiveK
    rw [h]
    decide
  · intro n h hn
    unfold effectiveK
    rw [h]
    show max 1 (min 8 (if n = 0 then 4 else n)) = 1
    rw [if_neg (by omega : ¬ n = 0), min_eq_right (by omega),
      max_eq_left (by omega)]
  · intro n h hn
    unfold effectiveK
    rw [h]
    show max 1 (min 8 (if n = 0 then 4 else n)) = 8
    rw [if_neg (by omega : ¬ n = 0), min_eq_left (by omega),
      max_eq_right (by norm_num)]

/-- Witness for C10: `"abc"` parses to NaN and yields 4, `"-3"` clamps to
1, `"99"` clamps to 8. -/
theorem effectiveK_clamped_witness :
    (jsParseInt "abc" = none ∧ effectiveK (some "abc") = 4) ∧
    (jsParseInt "-3" = some (-3) ∧ effectiveK (some "-3") = 1) ∧
    (jsParseInt "99" = some 99 ∧ effectiveK (some "99") = 8) :=
  ⟨⟨by decide, (effectiveK_clamped (some "abc")).2.2.2.1 (by decide)⟩,
   ⟨by decide, (effectiveK_clamped (some "-3")).2.2.2.2.1 (-3) (by decide) (by decide)⟩,
   ⟨by decide, (effectiveK_clamped (some "99")).2.2.2.2.2 99 (by decide) (by decide)⟩⟩

/-! ### Keyword boost -/

theorem keywordBoost_eq_formula (q text : String) :
    keywordBoost q text = min (2/10 : ℚ) ((hitCount q text : ℚ) * (5/100)) := by
  unfold keywordBoost hitCount
  by_cases hq : q = "" ∨ text = ""
  · rw [if_pos hq]
    rcases hq with hq | hq
    · subst hq
      rw [show queryToks "" = ([] : List (List Char)) from rfl]
      norm_num
    · subst hq
      have h0 : ((queryToks q).filter fun t => hasSubstr t (lowerL "")) = [] := by
        apply List.filter_eq_nil_iff.mpr
        intro t ht
        have hlen : 2 < t.length := by
          have h2 := (List.mem_filter.mp ht).2
          simp only [Bool.and_eq_true, decide_eq_true_eq] at h2
          exact h2.1
        cases t with
        | nil => simp at hlen
        | cons c cs =>
          rw [show lowerL "" = [] from rfl,
            show hasSubstr (c :: cs) [] = false from rfl]
          exact Bool.false_ne_true
      rw [h0]
      norm_num
  · rw [if_neg hq]
    by_cases ht : queryToks q = []
    · rw [if_pos ht, ht]
      norm_num
    · rw [if_neg ht]

/-- C4 (amended): the keyword boost is always in `[0, 0.2]`; it equals
`min(0.2, hits * 0.05)` where `hits` counts matching token *occurrences*
of the filtered query-token list (a duplicated query token contributes
once per occurrence), and from 4 effective hits on it saturates at 0.2. -/
theorem keywordBoost_bounds (q text : String) :
    (0 ≤ keywordBoost q text ∧ keywordBoost q text ≤ 2/10) ∧
    keywordBoost q text = min (2/10 : ℚ) ((hitCount q text : ℚ) * (5/100)) ∧
    (4 ≤ hitCount q text → keywordBoost q text = 2/10) := by
  have hf := keywordBoost_eq_formula q text
  refine ⟨⟨?_, ?_⟩, hf, ?_⟩
  · rw [hf]
    exact le_min (by norm_num) (mul_nonneg (Nat.cast_nonneg _) (by norm_num))
  · rw [hf]
    exact min_le_left _ _
  · intro h4
    rw [hf]
    refine min_eq_left ?_
    have h4Q : (4 : ℚ) ≤ (hitCount q text : ℚ) := by exact_mod_cast h4
    nlinarith

/-- Witness for C4: a query whose four distinct tokens all occur in the
text saturates the boost at exactly 0.2. -/
theorem keywordBoost_bounds_witness :
    4 ≤ hitCount "alpha beta gamma delta" "alpha beta gamma delta" ∧
    keywordBoost "alpha beta gamma delta" "alpha beta gamma delta" = 2/10 :=
  ⟨by decide,
   (keywordBoost_bounds "alpha beta gamma delta" "alpha beta gamma delta").2.2
     (by decide)⟩

/-- Counterexample for C4 as stated: the query `"cats cats"` has exactly
one *distinct* matching token, so "each distinct matching token adds 0.05"
predicts a boost of 0.05; the code counts each occurrence in the token
list and yields 0.1. -/
theorem keywordBoost_distinct_cex :
    (queryToks "cats cats").dedup = [['c', 'a', 't', 's']] ∧
    keywordBoost "cats cats" "cats" = 1/10 ∧
    keywordBoost "cats cats" "cats" ≠ 5/100 := by
  have hh : hitCount "cats cats" "cats" = 2 := by decide
  have hb : keywordBoost "cats cats" "cats" = 1/10 := by
    rw [keywordBoost_eq_formula, hh]
    norm_num
  refine ⟨by decide, hb, ?_⟩
  rw [hb]
  norm_num

/-! ### Vectorize ranker -/

theorem vLt_asymm (a b : VItem) (h : vLt a b = true) : vLt b a = false :=
  decide_eq_false (lt_asymm (of_decide_eq_true h))

theorem vLt_negtrans (a b c : VItem) (h1 : vLt a b = true)
    (h2 : vLt c b = false) : vLt a c = true :=
  decide_eq_true
    (lt_of_lt_of_le (of_decide_eq_true h1) (not_lt.mp (of_decide_eq_false h2)))

theorem vItemsFrom_get (q : String) (hyd : ℤ → Except Unit (Option VRow))
    (ms : List VMatch) :
    ∀ (n j : ℕ) (m : VMatch), ms.get? j = some m →
      (vItemsFrom q hyd n ms).get? j = some (vItemOf q hyd (n + j) m) := by
  induction ms with
  | nil => intro n j m h; simp at h
  | cons m0 rest ih =>
    intro n j m h
    cases j with
    | zero =>
      simp only [List.get?] at h
      cases h
      simp [vItemsFrom]
    | succ j =>
      simp only [List.get?] at h
      have := ih (n + 1) j m h
      simpa [vItemsFrom, Nat.add_assoc, Nat.add_comm, Nat.add_left_comm] using this

theorem mem_vItemsFrom (q : String) (hyd : ℤ → Except Unit (Option VRow))
    (r : VItem) :
    ∀ (ms : List VMatch) (n : ℕ), r ∈ vItemsFrom q hyd n ms →
      ∃ j m, ms.get? j = some m ∧ r = vItemOf q hyd (n + j) m := by
  intro ms
  induction ms with
  | nil => intro n h; simp [vItemsFrom] at h
  | cons m0 rest ih =>
    intro n h
    rcases List.mem_cons.mp h with rfl | h2
    · exact ⟨0, m0, rfl, rfl⟩
    · rcases ih (n + 1) h2 with ⟨j, m, hget, hr⟩
      refine ⟨j + 1, m, by simpa using hget, ?_⟩
      rw [hr]
      congr 1
      omega

/-- C9: index-mode ranking works on rounded values: the item built for
the `j`-th match carries `score = round4(round4(m.score ?? 0) + boost)`,
and the returned sequence is sorted descending by exactly this rounded
boosted score field. -/
theorem topKByVectorize_rounds (q : String) (ms : List VMatch)
    (hyd : ℤ → Except Unit (Option VRow)) (k : ℕ) :
    (∀ (j : ℕ) (m : VMatch), ms.get? j = some m →
      (vItems q hyd ms).get? j = some (vItemOf q hyd j m) ∧
      (vItemOf q hyd j m).score
        = round4 (round4 (m.score.getD 0) + keywordBoost q (hydText hyd m.id))) ∧
    List.Pairwise (fun a b : VItem => b.score ≤ a.score)
      (topKByVectorize q ms hyd k) := by
  constructor
  · intro j m h
    refine ⟨?_, rfl⟩
    have := vItemsFrom_get q hyd ms 0 j m h
    simpa [vItems] using this
  · have hsorted : DescSorted vLt
        (sortDesc vLt ((vItems q hyd ms).filter vKeep)) :=
      descSorted_sortDesc vLt vLt_asymm vLt_negtrans _
    have hsub : List.Sublist (topKByVectorize q ms hyd k)
        (sortDesc vLt ((vItems q hyd ms).filter vKeep)) :=
      List.take_sublist _ _
    refine (hsorted.sublist hsub).imp ?_
    intro a b hab
    exact not_lt.mp (of_decide_eq_false hab)

/-- Witness for C9 at a single concrete match. -/
theorem topKByVectorize_rounds_witness :
    ((vItems "hi" (fun _ => Except.ok none) [VMatch.mk 5 (some (1/3))]).get? 0
        = some (vItemOf "hi" (fun _ => Except.ok none) 0 (VMatch.mk 5 (some (1/3))))) ∧
    ((vItemOf "hi" (fun _ => Except.ok none) 0 (VMatch.mk 5 (some (1/3)))).score
        = round4 (round4 ((VMatch.mk 5 (some (1/3))).score.getD 0)
            + keywordBoost "hi"
                (hydText (fun _ => Except.ok none) (VMatch.mk 5 (some (1/3))).id))) :=
  (topKByVectorize_rounds "hi" [VMatch.mk 5 (some (1/3))]
    (fun _ => Except.ok none) 4).1 0 (VMatch.mk 5 (some (1/3))) rfl

/-- C7: every surfaced candidate was hydrated successfully into a row with
non-blank text — a candidate whose hydration throws or finds no row gets
an empty `text` and is removed by the filter; the filter runs before the
truncation to `k`, so dropped candidates never consume result slots. -/
theorem topKByVectorize_drops (q : String) (ms : List VMatch)
    (hyd : ℤ → Except Unit (Option VRow)) (k : ℕ) :
    (∀ r ∈ topKByVectorize q ms hyd k,
      ∃ row, hyd r.id = Except.ok (some row) ∧ r.text = row.text ∧
        jsTrim r.text.data ≠ []) ∧
    (topKByVectorize q ms hyd k).length
      = min k ((vItems q hyd ms).filter vKeep).length := by
  constructor
  · intro r hr
    have hr2 : r ∈ sortDesc vLt ((vItems q hyd ms).filter vKeep) :=
      List.mem_of_mem_take hr
    have hr3 : r ∈ (vItems q hyd ms).filter vKeep :=
      (mem_sortDesc vLt _ r).mp hr2
    rcases List.mem_filter.mp hr3 with ⟨hmem, hkeep⟩
    simp only [vKeep, Bool.and_eq_true, decide_eq_true_eq] at hkeep
    rcases mem_vItemsFrom q hyd r ms 0 hmem with ⟨j, m, _, hr4⟩
    have htext : r.text = hydText hyd m.id := by rw [hr4]; rfl
    have hid : r.id = m.id := by rw [hr4]; rfl
    have htrim : jsTrim r.text.data ≠ [] := by
      intro hcontra
      rw [hcontra] at hkeep
      simp at hkeep
    cases hc : hyd m.id with
    | error e =>
      exfalso
      apply hkeep.1
      rw [htext, hydText, hc]
    | ok row? =>
      cases row? with
      | none =>
        exfalso
        apply hkeep.1
        rw [htext, hydText, hc]
      | some row =>
        refine ⟨row, ?_, ?_, htrim⟩
        · rw [hid, hc]
        · rw [htext, hydText, hc]
  · rw [topKByVectorize, List.length_take, length_sortDesc]

/-- Witness for C7: two matches, where hydration of the first one throws; only
the second is surfaced, hydrated from its stored row. -/
theorem topKByVectorize_drops_witness :
    ∃ row,
      (fun id => if id = (2:ℤ)
          then Except.ok (some (VRow.mk "hello" none))
          else (Except.error () : Except Unit (Option VRow)))
        (vItemOf ""
          (fun id => if id = (2:ℤ)
            then Except.ok (some (VRow.mk "hello" none))
            else Except.error ()) 1 (VMatch.mk 2 (some (3/4)))).id
        = Except.ok (some row) ∧
      (vItemOf ""
        (fun id => if id = (2:ℤ)
          then Except.ok (some (VRow.mk "hello" none))
          else Except.error ()) 1 (VMatch.mk 2 (some (3/4)))).text = row.text ∧
      jsTrim (vItemOf ""
        (fun id => if id = (2:ℤ)
          then Except.ok (some (VRow.mk "hello" none))
          else Except.error ()) 1 (VMatch.mk 2 (some (3/4)))).text.data ≠ [] :=
  (topKByVectorize_drops ""
    [VMatch.mk 1 (some 1), VMatch.mk 2 (some (3/4))]
    (fun id => if id = (2:ℤ)
      then Except.ok (some (VRow.mk "hello" none))
      else Except.error ()) 4).1 _ (List.Mem.head _)

/-- C2 (amended): `topKByCosine` assigns `ref` labels in final rank order
(`#(i+1)` at position `i` of the returned sequence); `topKByVectorize`
instead stamps each candidate with `#(j+1)` for its 0-based position `j`
in the raw index match list, before the re-sort, so the surfaced refs
identify raw match positions, not final ranks. -/
theorem ref_labels (mem : List Chunk) (qVec : List ℚ) (k : ℕ) :
    (∀ (i : ℕ) (h : i < (topKByCosine mem qVec k).length),
      ((topKByCosine mem qVec k).get ⟨i, h⟩).ref = "#" ++ toString (i + 1)) ∧
    (∀ (q : String) (ms : List VMatch) (hyd : ℤ → Except Unit (Option VRow))
      (k2 : ℕ) (r : VItem), r ∈ topKByVectorize q ms hyd k2 →
      ∃ j m, ms.get? j = some m ∧ r = vItemOf q hyd j m ∧
        r.ref = "#" ++ toString (j + 1)) := by
  constructor
  · intro i h
    have := labelCos_get ((cosSorted mem qVec).take k) 0 i h
    simpa using this
  · intro q ms hyd k2 r hr
    have hr2 : r ∈ sortDesc vLt ((vItems q hyd ms).filter vKeep) :=
      List.mem_of_mem_take hr
    have hr3 : r ∈ (vItems q hyd ms).filter vKeep :=
      (mem_sortDesc vLt _ r).mp hr2
    rcases mem_vItemsFrom q hyd r ms 0 (List.mem_filter.mp hr3).1
      with ⟨j, m, hget, hr4⟩
    refine ⟨j, m, hget, by simpa using hr4, ?_⟩
    rw [hr4]
    simp [vItemOf]

/-- Witness for C2: a one-element corpus (rank 1 gets ref `#1`) and a
one-match index run (the surfaced item is the one stamped for match
position 0). -/
theorem ref_labels_witness :
    (((topKByCosine [Chunk.mk 1 "t" [1]] [1] 4).get ⟨0, by decide⟩).ref
        = "#" ++ toString 1) ∧
    (∃ j m, [VMatch.mk 7 (some 0)].get? j = some m ∧
      vItemOf "x" (fun _ => Except.ok (some (VRow.mk "data" none))) 0
          (VMatch.mk 7 (some 0))
        = vItemOf "x" (fun _ => Except.ok (some (VRow.mk "data" none))) j m ∧
      (vItemOf "x" (fun _ => Except.ok (some (VRow.mk "data" none))) 0
          (VMatch.mk 7 (some 0))).ref = "#" ++ toString (j + 1)) :=
  ⟨(ref_labels [Chunk.mk 1 "t" [1]] [1] 4).1 0 (by decide),
   (ref_labels [] [] 0).2 "x" [VMatch.mk 7 (some 0)]
     (fun _ => Except.ok (some (VRow.mk "data" none))) 4 _ (List.Mem.head _)⟩

/-- Counterexample for C2 as stated: with two index matches where the
second match gets a keyword boost, the re-sort puts the item stamped `#2`
first: the returned ref sequence is `["#2", "#1"]`, not rank order. -/
theorem topKByVectorize_ref_order_cex :
    (topKByVectorize "zebra"
        [VMatch.mk 1 (some (1/2)), VMatch.mk 2 (some (49/100))]
        (fun id => if id = 1 then Except.ok (some (VRow.mk "alpha" none))
          else Except.ok (some (VRow.mk "zebra stripes" none))) 4).map VItem.ref
      = ["#2", "#1"] ∧ ("#2" : String) ≠ "#1" := by
  have hkb1 : keywordBoost "zebra" "alpha" = 0 := by
    rw [keywordBoost_eq_formula, show hitCount "zebra" "alpha" = 0 from by decide]
    norm_num
  have hkb2 : keywordBoost "zebra" "zebra stripes" = 5/100 := by
    rw [keywordBoost_eq_formula,
      show hitCount "zebra" "zebra stripes" = 1 from by decide]
    norm_num
  have hs1 : (vItemOf "zebra"
      (fun id => if id = 1 then Except.ok (some (VRow.mk "alpha" none))
        else Except.ok (some (VRow.mk "zebra stripes" none))) 0
      (VMatch.mk 1 (some (1/2)))).score = 1/2 := by
    show round4 (round4 ((1:ℚ)/2) + keywordBoost "zebra" "alpha") = 1/2
    rw [hkb1]
    norm_num [round4, round_eq]
  have hs2 : (vItemOf "zebra"
      (fun id => if id = 1 then Except.ok (some (VRow.mk "alpha" none))
        else Except.ok (some (VRow.mk "zebra stripes" none))) 1
      (VMatch.mk 2 (some (49/100)))).score = 27/50 := by
    show round4 (round4 ((49:ℚ)/100) + keywordBoost "zebra" "zebra stripes") = 27/50
    rw [hkb2]
    norm_num [round4, round_eq]
  have hvlt : vLt
      (vItemOf "zebra"
        (fun id => if id = 1 then Except.ok (some (VRow.mk "alpha" none))
          else Except.ok (some (VRow.mk "zebra stripes" none))) 0
        (VMatch.mk 1 (some (1/2))))
      (vItemOf "zebra"
        (fun id => if id = 1 then Except.ok (some (VRow.mk "alpha" none))
          else Except.ok (some (VRow.mk "zebra stripes" none))) 1
        (VMatch.mk 2 (some (49/100)))) = true := by
    rw [vLt, hs1, hs2]
    exact decide_eq_true (by norm_num)
  refine ⟨?_, by decide⟩
  show ((sortDesc vLt (List.filter vKeep (vItems "zebra" _
      [VMatch.mk 1 (some (1/2)), VMatch.mk 2 (some (49/100))]))).take 4).map
        VItem.ref = ["#2", "#1"]
  rw [show List.filter vKeep (vItems "zebra"
      (fun id => if id = 1 then Except.ok (some (VRow.mk "alpha" none))
        else Except.ok (some (VRow.mk "zebra stripes" none)))
      [VMatch.mk 1 (some (1/2)), VMatch.mk 2 (some (49/100))])
    = [vItemOf "zebra"
        (fun id => if id = 1 then Except.ok (some (VRow.mk "alpha" none))
          else Except.ok (some (VRow.mk "zebra stripes" none))) 0
        (VMatch.mk 1 (some (1/2))),
       vItemOf "zebra"
        (fun id => if id = 1 then Except.ok (some (VRow.mk "alpha" none))
          else Except.ok (some (VRow.mk "zebra stripes" none))) 1
        (VMatch.mk 2 (some (49/100)))] from rfl]
  rw [show ∀ x y : VItem, sortDesc vLt [x, y] = insertDesc vLt y [x]
    from fun x y => rfl]
  rw [insertDesc, hvlt]
  simp only [if_true]
  simp [vItemOf]
  exact ⟨rfl, rfl⟩

/-! ### Empty corpus -/

/-- C3 (amended): on an empty corpus both rankers return the empty
sequence (no exception), and the Workers `/ask` produces the
no-context sentinel answer ("I do not know ...") with `ok` status; the local Express `/ask`,
however, rejects an empty store with a 400 "No documents ingested yet"
error before retrieval runs. -/
theorem empty_corpus_outcomes :
    (∀ (qVec : List ℚ) (k : ℕ), topKByCosine [] qVec k = []) ∧
    (∀ (q : String) (hyd : ℤ → Except Unit (Option VRow)) (k : ℕ),
      topKByVectorize q [] hyd k = []) ∧
    (∀ (genF : String → String → String) (hyd : ℤ → Except Unit (Option VRow))
      (qRaw : String) (kRaw : Option String), jsTrimS qRaw ≠ "" →
      askWorkers genF [] hyd qRaw kRaw
        = WorkersAsk.success []
            "I don\x27t know. (No relevant context was found.)") ∧
    (∀ (embedF : String → List ℚ) (genF : String → String → Option String)
      (nid : ℕ) (qRaw : String) (kRaw : Option String), jsTrimS qRaw ≠ "" →
      (askLocalS embedF genF (StoreState.mk [] nid) qRaw kRaw).1
        = LocalAsk.badRequest "No documents ingested yet") := by
  have hvec : ∀ (q : String) (hyd : ℤ → Except Unit (Option VRow)) (k : ℕ),
      topKByVectorize q [] hyd k = [] := by
    intro q hyd k
    simp [topKByVectorize, vItems, vItemsFrom, sortDesc, sortDescAux]
  refine ⟨?_, hvec, ?_, ?_⟩
  · intro qVec k
    simp [topKByCosine, cosSorted, cosScored, sortDesc, sortDescAux, labelCos]
  · intro genF hyd qRaw kRaw h
    simp only [askWorkers, if_neg h]
    rw [hvec]
    simp
  · intro embedF genF nid qRaw kRaw h
    simp [askLocalS, h, rawMemory]

/-- Witness for C3: a concrete nonempty query against an empty corpus. -/
theorem empty_corpus_outcomes_witness :
    (askWorkers (fun _ _ => "ans") [] (fun _ => Except.ok none) "hi" none
      = WorkersAsk.success []
          "I don\x27t know. (No relevant context was found.)") ∧
    ((askLocalS (fun _ => []) (fun _ _ => none) (StoreState.mk [] 1) "hi" none).1
      = LocalAsk.badRequest "No documents ingested yet") :=
  ⟨empty_corpus_outcomes.2.2.1 (fun _ _ => "ans") (fun _ => Except.ok none)
      "hi" none (by decide),
   empty_corpus_outcomes.2.2.2 (fun _ => []) (fun _ _ => none) 1 "hi" none
      (by decide)⟩

/-- Counterexample for C3 as stated: the local Express orchestrator does
not produce the "no relevant context" outcome on an empty corpus — it
fails the request with a 400 "No documents ingested yet" error. -/
theorem askLocal_empty_corpus_error_cex :
    (askLocalS (fun _ => []) (fun _ _ => none) (StoreState.mk [] 1) "hello"
        none).1
      = LocalAsk.badRequest "No documents ingested yet" := by
  decide

end MiniRag
